import Mathlib

/-!
Verification development for the constant-expression checking pass
(`middle/check_const.rs`): a shallow embedding of the crate walker, the
constant-context validator (`check_expr` / `check_pat` / `check_item`) and
the constant-recursion cycle detector (`check_item_recursion`), together
with theorems settling the specified properties.

Machine state that the pass only reads (the resolution map `def_map`, the
overload map `method_map`, the type oracle, and the item map `ast_map`) is
modelled as read-only lookup functions collected in a context `Ctx`.
Recoverable diagnostics (`span_err`) are collected in an output list;
aborting failures (`span_fatal`, `span_bug`, `fail!`) are modelled as the
error case of `Except`, which faithfully reflects that they terminate the
run immediately.
-/

namespace CheckConst

/-- Node identifier (`ast::NodeId`). -/
abbrev NodeId := Nat

/-- Source location span (`codemap::Span`); the pass only threads spans
through into diagnostics, so an abstract identifier suffices. -/
abbrev Span := Nat

/-- Unary operators (`ast::UnOp`): the pass distinguishes `UnDeref`,
`UnBox`, `UnUniq`; the remaining operators (`UnNot`, `UnNeg`) fall into
the generic operator arm. -/
inductive UnOp where
  | unBox
  | unUniq
  | unDeref
  | unNot
  | unNeg
deriving DecidableEq, Repr

/-- Mutability qualifier (`ast::Mutability`). -/
inductive Mutability where
  | mutImmutable
  | mutMutable
deriving DecidableEq, Repr

/-- Evaluation strategy of a vector store expression (`ast::ExprVstore`'s
second component). -/
inductive VstoreKind where
  | vstoreUniq
  | vstoreBox
  | vstoreSlice
  | vstoreMutSlice
deriving DecidableEq, Repr

/-- Calling sugar of a call expression (`ast::CallSugar`): only `NoSugar`
calls are matched by the call arm of `check_expr`; sugared calls fall into
the default arm. -/
inductive CallSugar where
  | noSugar
  | doSugar
deriving DecidableEq, Repr

/-- Literal kinds (`ast::lit_`): the pass only distinguishes string
literals (`lit_str`) from every other literal. -/
inductive LitKind where
  | litStr (s : String)
  | litOther
deriving DecidableEq, Repr

/-- A path segment (`ast::PathSegment`); the pass only consults whether
the segment's explicit type-argument list `types` is empty, so the
arguments themselves are abstract. -/
structure PathSegment where
  types : List Unit
deriving DecidableEq, Repr

/-- A path (`ast::Path`); only the segments are consulted. -/
structure Path where
  segments : List PathSegment
deriving DecidableEq, Repr

mutual

/-- An expression (`ast::Expr`): a node id, a span, and the shape. -/
inductive Expr where
  | mk (id : NodeId) (span : Span) (node : ExprNode)

/-- Expression shapes (`ast::Expr_`), carrying exactly the structure the
pass consults.  Fields of the original AST that `check_expr` and the
generic walk never read (operator tokens, field names, type ascriptions)
are elided.  `exprOther` stands for every expression form not named by
`check_expr`'s match (blocks, ifs, loops, closures, ...) together with its
child expressions, which the generic walk still visits. -/
inductive ExprNode where
  | exprUnary (op : UnOp) (a : Expr)
  | exprLit (l : LitKind)
  | exprBinary (a b : Expr)
  | exprCast (a : Expr)
  | exprPath (pth : Path)
  | exprCall (callee : Expr) (args : List Expr) (sugar : CallSugar)
  | exprParen (a : Expr)
  | exprVstore (a : Expr) (v : VstoreKind)
  | exprVec (elems : List Expr) (m : Mutability)
  | exprAddrOf (m : Mutability) (a : Expr)
  | exprField (a : Expr)
  | exprIndex (a b : Expr)
  | exprTup (elems : List Expr)
  | exprRepeat (elem : Expr) (count : Expr) (m : Mutability)
  | exprStruct (fields : List Expr)
  | exprOther (children : List Expr)

end

/-- The node id of an expression. -/
def Expr.id : Expr → NodeId
  | .mk i _ _ => i

/-- The span of an expression. -/
def Expr.span : Expr → Span
  | .mk _ s _ => s

/-- The shape of an expression. -/
def Expr.node : Expr → ExprNode
  | .mk _ _ n => n

mutual

/-- A pattern (`ast::Pat`): a node id, a span, and the shape. -/
inductive Pat where
  | mk (id : NodeId) (span : Span) (node : PatNode)

/-- Pattern shapes (`ast::Pat_`): `check_pat` distinguishes literal
patterns and range patterns; every other pattern form is walked
structurally, so `patOther` carries its sub-patterns. -/
inductive PatNode where
  | patLit (a : Expr)
  | patRange (lo hi : Expr)
  | patOther (children : List Pat)

end

/-- An enum variant (`ast::variant`); the pass only reads the optional
discriminant expression `disr_expr`. -/
structure Variant where
  disr_expr : Option Expr

mutual

/-- An item (declaration, `ast::item`): a node id, a span, and the shape. -/
inductive Item where
  | mk (id : NodeId) (span : Span) (node : ItemNode)

/-- Item shapes (`ast::item_`): `check_item` distinguishes `item_static`
(a constant binding, keeping its initializer expression) and `item_enum`
(keeping the variants); every other item kind is walked structurally, so
`itemOther` carries the nested items, expressions and patterns that the
generic walk reaches. -/
inductive ItemNode where
  | itemStatic (init : Expr)
  | itemEnum (variants : List Variant)
  | itemOther (items : List Item) (exprs : List Expr) (pats : List Pat)

end

/-- The node id of an item. -/
def Item.id : Item → NodeId
  | .mk i _ _ => i

/-- The span of an item. -/
def Item.span : Item → Span
  | .mk _ s _ => s

/-- A crate (`ast::Crate`): the top-level items, visited in order by
`visit::walk_crate`. -/
structure Crate where
  items : List Item

/-- A definition id (`ast::DefId`): owning crate number and node id;
`ast_util::is_local` tests `krate == LOCAL_CRATE` (crate number `0`). -/
structure DefId where
  krate : Nat
  node : NodeId
deriving DecidableEq, Repr

/-- Resolution results (`resolve::Def`) as far as the pass distinguishes
them: `DefStatic` (with its definition id and mutability), `DefFn`,
`DefVariant`, `DefStruct` are accepted by the path arm; every other
definition kind is `defOther`. -/
inductive Def where
  | defStatic (did : DefId) (mutbl : Bool)
  | defFn
  | defVariant
  | defStruct
  | defOther
deriving DecidableEq, Repr

/-- The inferred type of an expression as consumed by the pass: the type
oracle is only asked `ty::type_is_numeric`, `ty::type_is_unsafe_ptr` and
`ppaux::ty_to_str` (the printed name), so a type is modelled by exactly
those three observations. -/
structure Ty where
  is_numeric : Bool
  is_unsafe_ptr : Bool
  name : String
deriving DecidableEq, Repr

/-- An entry of the ast map (`ast_map::map`): either an item node or some
other node kind (which makes the cycle detector's lookup fail). -/
inductive AstMapNode where
  | nodeItem (it : Item)
  | nodeOther

/-- The collaborators handed to the expression/pattern validator — the
exact read-only state `check_expr` receives in the source (`def_map`,
`method_map`, `tcx`): the overload map (keyed by expression id), the
resolution map, and the type oracle (`ty::expr_ty` composed with the
three observations the pass makes of a type).  The validator is never
given the item map or anything else the cycle detector uses. -/
structure VCtx where
  method_map : NodeId → Bool
  def_map : NodeId → Option Def
  expr_ty : NodeId → Ty

/-- The full read-only collaborator state of the pass: the validator's
collaborators plus the item map (`ast_map`, keyed by a definition's node
id) used only by the cycle detector, and `fuel`, which models the
recursion capacity of the cycle detector (the source recursion terminates
because a crate is finite; the fuel makes that explicit). -/
structure Ctx where
  method_map : NodeId → Bool
  def_map : NodeId → Option Def
  expr_ty : NodeId → Ty
  ast_map : NodeId → Option AstMapNode
  fuel : Nat

/-- The validator's view of the full context: the three collaborator maps
`check_crate` hands down to `check_expr` and `check_pat`. -/
def Ctx.validator (ctx : Ctx) : VCtx :=
  { method_map := ctx.method_map
    def_map := ctx.def_map
    expr_ty := ctx.expr_ty }

/-- A recoverable diagnostic recorded by `Session::span_err`: a span and
a message. -/
structure Diag where
  span : Span
  msg : String
deriving DecidableEq, Repr

/-- An aborting failure: `span_fatal` (the recursive-constant error),
`span_bug` (internal-consistency failure with a span), or `fail!`-style
failures (including exhaustion of the modelled recursion fuel, which the
real, finitely-recursing code never reaches). -/
inductive Fatal where
  | spanFatal (sp : Span) (msg : String)
  | spanBug (sp : Span) (msg : String)
  | bugFail (msg : String)
deriving DecidableEq, Repr

/-- Message of the allocation error arm. -/
def allocMsg : String := "cannot do allocations in constant expressions"

/-- Message of the user-defined-operator error arm. -/
def overloadMsg : String :=
  "user-defined operators are not allowed in constant expressions"

/-- Message of the cast error arm, naming the offending type. -/
def castMsg (tyName : String) : String :=
  "can not cast to `" ++ tyName ++ "` in a constant expression"

/-- Message of the path type-parameter error. -/
def typeParamMsg : String :=
  "paths in constants may only refer to items without type parameters"

/-- Message of the bad-path-target error. -/
def pathDefMsg : String :=
  "paths in constants may only refer to constants or functions"

/-- Message of the bad-call-target error. -/
def callMsg : String :=
  "function calls in constants are limited to struct and enum constructors"

/-- Message of the mutable-borrow error. -/
def borrowMsg : String :=
  "borrowed pointers in constants may only refer to immutable values"

/-- Message of the vector-allocation error. -/
def vecAllocMsg : String := "cannot allocate vectors in constant expressions"

/-- Message of the default (unimplemented expression form) error. -/
def unimplMsg : String := "constant contains unimplemented expression type"

mutual

/-- `check_expr` from the source: when `is_const` is set, dispatch on the
expression shape, emitting the whitelist's diagnostics; the allocation arm
and the default arm `return` early (skipping the walk into children), the
parenthesis arm re-checks the inner expression directly, and every other
arm falls through to the generic child walk `visit::walk_expr`. -/
def check_expr (ctx : VCtx) (e : Expr) (is_const : Bool) :
    Except Fatal (List Diag) := do
  let (armDiags, stop) ←
    (if is_const then
      match e with
      | .mk eid esp enode =>
        match enode with
        | .exprUnary .unDeref _ => pure (([] : List Diag), false)
        | .exprUnary .unBox _ | .exprUnary .unUniq _ =>
            pure ([Diag.mk esp allocMsg], true)
        | .exprLit (.litStr _) => pure ([], false)
        | .exprBinary _ _ | .exprUnary _ _ =>
            pure ((if ctx.method_map eid then [Diag.mk esp overloadMsg]
                   else []), false)
        | .exprLit _ => pure ([], false)
        | .exprCast _ =>
            let ety := ctx.expr_ty eid
            pure ((if !ety.is_numeric && !ety.is_unsafe_ptr then
                     [Diag.mk esp (castMsg ety.name)]
                   else []), false)
        | .exprPath pth =>
            let d1 := if !(pth.segments.all fun seg => seg.types.isEmpty)
                      then [Diag.mk esp typeParamMsg] else []
            match ctx.def_map eid with
            | some (.defStatic _ _) | some .defFn | some .defVariant
            | some .defStruct => pure (d1, false)
            | some _ => pure (d1 ++ [Diag.mk esp pathDefMsg], false)
            | none => .error (.spanBug esp "unbound path in const?!")
        | .exprCall callee _ .noSugar =>
            (match ctx.def_map callee.id with
             | some .defStruct => pure ([], false)
             | some .defVariant => pure ([], false)
             | _ => pure ([Diag.mk esp callMsg], false))
        | .exprParen a => do
            let d ← check_expr ctx a is_const
            pure (d, false)
        | .exprVstore _ .vstoreSlice | .exprVec _ .mutImmutable
        | .exprAddrOf .mutImmutable _ | .exprField _ | .exprIndex _ _
        | .exprTup _ | .exprRepeat _ _ _ | .exprStruct _ =>
            pure ([], false)
        | .exprAddrOf _ _ => pure ([Diag.mk esp borrowMsg], false)
        | .exprVstore _ .vstoreUniq | .exprVstore _ .vstoreBox =>
            pure ([Diag.mk esp vecAllocMsg], false)
        | _ => pure ([Diag.mk esp unimplMsg], true)
    else pure ([], false))
  if stop then
    pure armDiags
  else do
    let wd ← walk_expr ctx e is_const
    pure (armDiags ++ wd)
termination_by (sizeOf e, 1)

/-- Modelled from the spec: the generic child walk `visit::walk_expr` of
the visitor framework (outside `src/`), which "always continu[es] to visit
children after processing the current node" — it calls the visitor's
`visit_expr` (that is, `check_expr`) on every child expression, in source
order, threading the same environment flag. -/
def walk_expr (ctx : VCtx) (e : Expr) (is_const : Bool) :
    Except Fatal (List Diag) :=
  match e with
  | .mk _ _ n =>
    match n with
    | .exprUnary _ a => check_expr ctx a is_const
    | .exprLit _ => pure []
    | .exprBinary a b => do
        let d1 ← check_expr ctx a is_const
        let d2 ← check_expr ctx b is_const
        pure (d1 ++ d2)
    | .exprCast a => check_expr ctx a is_const
    | .exprPath _ => pure []
    | .exprCall callee args _ => do
        let d1 ← check_expr ctx callee is_const
        let d2 ← check_expr_list ctx args is_const
        pure (d1 ++ d2)
    | .exprParen a => check_expr ctx a is_const
    | .exprVstore a _ => check_expr ctx a is_const
    | .exprVec es _ => check_expr_list ctx es is_const
    | .exprAddrOf _ a => check_expr ctx a is_const
    | .exprField a => check_expr ctx a is_const
    | .exprIndex a b => do
        let d1 ← check_expr ctx a is_const
        let d2 ← check_expr ctx b is_const
        pure (d1 ++ d2)
    | .exprTup es => check_expr_list ctx es is_const
    | .exprRepeat a b _ => do
        let d1 ← check_expr ctx a is_const
        let d2 ← check_expr ctx b is_const
        pure (d1 ++ d2)
    | .exprStruct fs => check_expr_list ctx fs is_const
    | .exprOther es => check_expr_list ctx es is_const
termination_by (sizeOf e, 0)

/-- Check a list of child expressions in order, concatenating their
diagnostics (the visitor framework's iteration over children). -/
def check_expr_list (ctx : VCtx) (es : List Expr) (is_const : Bool) :
    Except Fatal (List Diag) :=
  match es with
  | [] => pure []
  | a :: rest => do
      let d ← check_expr ctx a is_const
      let ds ← check_expr_list ctx rest is_const
      pure (d ++ ds)
termination_by (sizeOf es, 0)

end

/-- `is_str` from the source (`check_pat`'s local helper): a plain owned
string literal, i.e. `ExprVstore(ExprLit(lit_str(..)), ExprVstoreUniq)`. -/
def is_str (e : Expr) : Bool :=
  match e with
  | .mk _ _ (.exprVstore (.mk _ _ (.exprLit (.litStr _))) .vstoreUniq) => true
  | _ => false

mutual

/-- `check_pat` from the source: the incoming flag `_is_const` is
ignored; a literal pattern's bound and a range pattern's bounds are
checked as constant expressions (flag `true`) unless they are plain owned
string literals (`is_str`), and every other pattern form is walked
structurally with flag `false`. -/
def check_pat (ctx : VCtx) (p : Pat) (_is_const : Bool) :
    Except Fatal (List Diag) :=
  match p with
  | .mk _ _ pn =>
    match pn with
    | .patLit a => if is_str a then pure [] else check_expr ctx a true
    | .patRange a b => do
        let d1 ← (if is_str a then pure [] else check_expr ctx a true)
        let d2 ← (if is_str b then pure [] else check_expr ctx b true)
        pure (d1 ++ d2)
    | .patOther ps => check_pat_list ctx ps false
termination_by (sizeOf p, 1)

/-- Modelled from the spec: the generic pattern walk `visit::walk_pat`
over the sub-patterns of a structural pattern form (outside `src/`),
calling the visitor's `visit_pat` (that is, `check_pat`) on each child
with the environment flag it was handed. -/
def check_pat_list (ctx : VCtx) (ps : List Pat) (is_const : Bool) :
    Except Fatal (List Diag) :=
  match ps with
  | [] => pure []
  | p :: rest => do
      let d ← check_pat ctx p is_const
      let ds ← check_pat_list ctx rest is_const
      pure (d ++ ds)
termination_by (sizeOf ps, 0)

end

section CycleDetector

/-- A pending task of the cycle detector's traversal: the defunctionalised
methods of `CheckItemRecursionVisitor` (`visit_item`, `visit_expr`) and
the generic walks it relies on (`walk_item`, `walk_expr`, `walk_pat` via
default `visit_pat`), plus the framework's iteration over child lists. -/
inductive CdTask where
  | tItem (it : Item)
  | tWalkItem (it : Item)
  | tExpr (e : Expr)
  | tWalkExpr (e : Expr)
  | tPat (p : Pat)
  | tItems (its : List Item)
  | tExprs (es : List Expr)
  | tPats (ps : List Pat)

/-- The child expressions of an expression, in the order the generic
visitor walk reaches them (modelled from the spec's description of the
structural walk, for the cycle detector's `walk_expr`). -/
def childExprs (e : Expr) : List Expr :=
  match e with
  | .mk _ _ n =>
    match n with
    | .exprUnary _ a => [a]
    | .exprLit _ => []
    | .exprBinary a b => [a, b]
    | .exprCast a => [a]
    | .exprPath _ => []
    | .exprCall callee args _ => callee :: args
    | .exprParen a => [a]
    | .exprVstore a _ => [a]
    | .exprVec es _ => es
    | .exprAddrOf _ a => [a]
    | .exprField a => [a]
    | .exprIndex a b => [a, b]
    | .exprTup es => es
    | .exprRepeat a b _ => [a, b]
    | .exprStruct fs => fs
    | .exprOther es => es

/-- One run of the cycle detector (`CheckItemRecursionVisitor`), written
as a fuel-indexed interpreter over `CdTask`s so that all its invariants
can be proved by induction on the fuel.  The state is the traversal stack
`idstack` of item node ids; the result is the final stack together with
the trace of every stack value attained after a push or a pop (used to
state the no-duplicates invariant).  `root` is `env.root_it`: the span of
the fatal "recursive constant" error is always the root item's span.
Running out of fuel is a `bugFail`; the source's recursion needs no fuel
because a crate is finite. -/
def cd_run (ctx : Ctx) (root : Item) :
    Nat → CdTask → List NodeId →
    Except Fatal (List NodeId × List (List NodeId))
  | 0, _, _ => .error (.bugFail "cycle detector out of fuel")
  | fuel + 1, task, stack =>
    match task with
    | .tItem it =>
        -- visit_item: fatal if the id is already on the stack, else
        -- push, walk the item, pop.
        if stack.any fun x => x == it.id then
          .error (.spanFatal root.span "recursive constant")
        else do
          let s1 := stack ++ [it.id]
          let (s2, tr) ← cd_run ctx root fuel (.tWalkItem it) s1
          let s3 := s2.dropLast
          pure (s3, s1 :: (tr ++ [s3]))
    | .tWalkItem it =>
        -- visit::walk_item: visit the children of the item.
        (match it with
         | .mk _ _ (.itemStatic ex) => cd_run ctx root fuel (.tExpr ex) stack
         | .mk _ _ (.itemEnum vars) =>
             cd_run ctx root fuel
               (.tExprs (vars.filterMap fun v => v.disr_expr)) stack
         | .mk _ _ (.itemOther its es ps) => do
             let (s1, t1) ← cd_run ctx root fuel (.tItems its) stack
             let (s2, t2) ← cd_run ctx root fuel (.tExprs es) s1
             let (s3, t3) ← cd_run ctx root fuel (.tPats ps) s2
             pure (s3, t1 ++ t2 ++ t3))
    | .tExpr e =>
        -- visit_expr: a path expression resolving to a local static is
        -- looked up in the ast map and visited as an item; then the
        -- generic walk continues into the children.
        (match e with
         | .mk eid _ (.exprPath _) => do
             let (s1, t1) ←
               (match ctx.def_map eid with
                | some (.defStatic did _) =>
                    if did.krate == 0 then
                      match ctx.ast_map did.node with
                      | some (.nodeItem it) =>
                          cd_run ctx root fuel (.tItem it) stack
                      | some .nodeOther =>
                          .error (.bugFail "const not bound to an item")
                      | none =>
                          .error (.bugFail "ast map lookup failed")
                    else pure (stack, [])
                | _ => pure (stack, []))
             let (s2, t2) ← cd_run ctx root fuel (.tWalkExpr e) s1
             pure (s2, t1 ++ t2)
         | _ => cd_run ctx root fuel (.tWalkExpr e) stack)
    | .tWalkExpr e => cd_run ctx root fuel (.tExprs (childExprs e)) stack
    | .tPat p =>
        -- default visit_pat = visit::walk_pat: literal and range pattern
        -- bounds are expressions, other patterns carry sub-patterns.
        (match p with
         | .mk _ _ (.patLit a) => cd_run ctx root fuel (.tExpr a) stack
         | .mk _ _ (.patRange a b) => do
             let (s1, t1) ← cd_run ctx root fuel (.tExpr a) stack
             let (s2, t2) ← cd_run ctx root fuel (.tExpr b) s1
             pure (s2, t1 ++ t2)
         | .mk _ _ (.patOther ps) => cd_run ctx root fuel (.tPats ps) stack)
    | .tItems its =>
        (match its with
         | [] => pure (stack, [])
         | it :: rest => do
             let (s1, t1) ← cd_run ctx root fuel (.tItem it) stack
             let (s2, t2) ← cd_run ctx root fuel (.tItems rest) s1
             pure (s2, t1 ++ t2))
    | .tExprs es =>
        (match es with
         | [] => pure (stack, [])
         | e :: rest => do
             let (s1, t1) ← cd_run ctx root fuel (.tExpr e) stack
             let (s2, t2) ← cd_run ctx root fuel (.tExprs rest) s1
             pure (s2, t1 ++ t2))
    | .tPats ps =>
        (match ps with
         | [] => pure (stack, [])
         | p :: rest => do
             let (s1, t1) ← cd_run ctx root fuel (.tPat p) stack
             let (s2, t2) ← cd_run ctx root fuel (.tPats rest) s1
             pure (s2, t1 ++ t2))

/-- `check_item_recursion` from the source: build a fresh environment
whose root item is `it` and whose traversal stack `idstack` is empty, and
run the recursion visitor's `visit_item` on `it`. -/
def check_item_recursion (ctx : Ctx) (it : Item) :
    Except Fatal (List NodeId × List (List NodeId)) :=
  cd_run ctx it ctx.fuel (.tItem it) []

end CycleDetector

/-- The enum arm's iteration in `check_item`: check each variant's
discriminant expression, if present, with the constant flag set.  Like
`check_expr`, it receives only the validator's collaborators. -/
def check_variants (ctx : VCtx) (vs : List Variant) :
    Except Fatal (List Diag) :=
  match vs with
  | [] => pure []
  | v :: rest => do
      let d ← (match v.disr_expr with
               | some ex => check_expr ctx ex true
               | none => pure [])
      let ds ← check_variants ctx rest
      pure (d ++ ds)

/-- The generic walk's iteration over enum variants, visiting each
discriminant expression with the environment flag. -/
def walk_variants (ctx : VCtx) (vs : List Variant) (env : Bool) :
    Except Fatal (List Diag) :=
  match vs with
  | [] => pure []
  | v :: rest => do
      let d ← (match v.disr_expr with
               | some ex => check_expr ctx ex env
               | none => pure [])
      let ds ← walk_variants ctx rest env
      pure (d ++ ds)

mutual

/-- `check_item` from the source: a `static` item has its initializer
checked with the constant flag set and is then handed to the cycle
detector; an `enum` item has every variant's discriminant expression
checked with the constant flag set (and is not handed to the cycle
detector — only the validator's collaborators reach `check_variants`);
every other item is walked structurally with the flag cleared.  The
incoming `_is_const` flag is ignored. -/
def check_item (ctx : Ctx) (it : Item) (_is_const : Bool) :
    Except Fatal (List Diag) :=
  match it with
  | .mk iid isp (.itemStatic ex) => do
      let d ← check_expr ctx.validator ex true
      let _ ← check_item_recursion ctx (.mk iid isp (.itemStatic ex))
      pure d
  | .mk _ _ (.itemEnum vars) => check_variants ctx.validator vars
  | .mk iid isp (.itemOther its es ps) =>
      walk_item ctx (.mk iid isp (.itemOther its es ps)) false
termination_by (sizeOf it, 1)

/-- Modelled from the spec: the generic item walk `visit::walk_item`
(outside `src/`), which recurses structurally into the item's children —
nested items, expressions and patterns — calling the visitor's methods
(`check_item`, `check_expr`, `check_pat`) with the environment flag it
was handed. -/
def walk_item (ctx : Ctx) (it : Item) (env : Bool) :
    Except Fatal (List Diag) :=
  match it with
  | .mk _ _ (.itemStatic ex) => check_expr ctx.validator ex env
  | .mk _ _ (.itemEnum vars) => walk_variants ctx.validator vars env
  | .mk _ _ (.itemOther its es ps) => do
      let d1 ← check_item_list ctx its env
      let d2 ← check_expr_list ctx.validator es env
      let d3 ← check_pat_list ctx.validator ps env
      pure (d1 ++ d2 ++ d3)
termination_by (sizeOf it, 0)

/-- The visitor framework's iteration over a list of items, visiting each
with `visit_item` (that is, `check_item`). -/
def check_item_list (ctx : Ctx) (its : List Item) (env : Bool) :
    Except Fatal (List Diag) :=
  match its with
  | [] => pure []
  | it :: rest => do
      let d ← check_item ctx it env
      let ds ← check_item_list ctx rest env
      pure (d ++ ds)
termination_by (sizeOf its, 0)

end

/-- `Session::abort_if_errors` as observed by this pass: compilation is
aborted exactly when the diagnostic counter — the number of recoverable
diagnostics recorded so far — is non-zero. -/
def abort_if_errors (diags : List Diag) : Bool :=
  diags.length != 0

/-- `check_crate` from the source: walk every top-level item of the crate
with the environment flag `false` (Modelled from the spec: the dispatch
through `visit::walk_crate`, outside `src/`, visits the crate's module
items in order), then make the abort decision once, from the diagnostic
counter. -/
def check_crate (ctx : Ctx) (c : Crate) : Except Fatal (List Diag × Bool) := do
  let ds ← check_item_list ctx c.items false
  pure (ds, abort_if_errors ds)

/-- A validator context whose collaborator maps are all empty or
negative: no operator resolved to an overload, no path resolves, every
expression's type is a non-numeric non-pointer type named `T`. -/
def trivVCtx : VCtx where
  method_map := fun _ => false
  def_map := fun _ => none
  expr_ty := fun _ => { is_numeric := false, is_unsafe_ptr := false, name := "T" }

/-- A full context whose collaborator maps are all empty or negative and
with no detector fuel. -/
def trivCtx : Ctx where
  method_map := fun _ => false
  def_map := fun _ => none
  expr_ty := fun _ => { is_numeric := false, is_unsafe_ptr := false, name := "T" }
  ast_map := fun _ => none
  fuel := 0

/-- A path with a single segment carrying no explicit type arguments. -/
def cyclePath : Path := { segments := [ { types := [] } ] }

/-- Constant item `A` (node id `1`): `static A = B;` — its initializer is
the path expression with node id `10`, which the cycle context resolves to
item `B`.  The item span and the initializer span are parameters. -/
def cycleItemA (spA sA : Span) : Item :=
  .mk 1 spA (.itemStatic (.mk 10 sA (.exprPath cyclePath)))

/-- Constant item `B` (node id `2`): `static B = C;` via path node `11`. -/
def cycleItemB (spB sB : Span) : Item :=
  .mk 2 spB (.itemStatic (.mk 11 sB (.exprPath cyclePath)))

/-- Constant item `C` (node id `3`): `static C = A;` via path node `12`. -/
def cycleItemC (spC sC : Span) : Item :=
  .mk 3 spC (.itemStatic (.mk 12 sC (.exprPath cyclePath)))

/-- The collaborator context for the reference chain `A → B → C → A`: the
resolution map sends path `10` to static `B`, path `11` to static `C`,
path `12` to static `A` (all local), and the item map holds the three
items under their node ids. -/
def cycleCtx (spA sA spB sB spC sC : Span) : Ctx where
  method_map := fun _ => false
  def_map := fun n =>
    if n == 10 then some (.defStatic { krate := 0, node := 2 } false)
    else if n == 11 then some (.defStatic { krate := 0, node := 3 } false)
    else if n == 12 then some (.defStatic { krate := 0, node := 1 } false)
    else none
  expr_ty := fun _ => { is_numeric := false, is_unsafe_ptr := false, name := "T" }
  ast_map := fun n =>
    if n == 1 then some (.nodeItem (cycleItemA spA sA))
    else if n == 2 then some (.nodeItem (cycleItemB spB sB))
    else if n == 3 then some (.nodeItem (cycleItemC spC sC))
    else none
  fuel := 40

/-- A context like `trivCtx` but with enough detector fuel for small
non-recursive items. -/
def detOkCtx : Ctx where
  method_map := fun _ => false
  def_map := fun _ => none
  expr_ty := fun _ => { is_numeric := false, is_unsafe_ptr := false, name := "T" }
  ast_map := fun _ => none
  fuel := 10

/-- A single constant item `static K = 1;` (node id `1`, literal
initializer) that is neither recursive nor erroneous. -/
def detOkItem : Item := .mk 1 2 (.itemStatic (.mk 3 4 (.exprLit .litOther)))

/-- A validator context whose resolution map sends node id `0` to a
definition kind that the path whitelist rejects (`defOther`), and nothing
else. -/
def pathVCtx : VCtx where
  method_map := fun _ => false
  def_map := fun n => if n == 0 then some .defOther else none
  expr_ty := fun _ => { is_numeric := false, is_unsafe_ptr := false, name := "T" }

/-- A path one of whose segments carries an explicit type argument. -/
def tyArgPath : Path := { segments := [ { types := [()] } ] }

mutual

/-- All node ids of an expression subtree: the node's own id followed by
the children's ids in the generic walk's order. -/
def Expr.ids : Expr → List NodeId
  | .mk i _ n => i :: ExprNode.ids n

/-- Node ids of the children of an expression shape, in walk order. -/
def ExprNode.ids : ExprNode → List NodeId
  | .exprUnary _ a => a.ids
  | .exprLit _ => []
  | .exprBinary a b => a.ids ++ b.ids
  | .exprCast a => a.ids
  | .exprPath _ => []
  | .exprCall callee args _ => callee.ids ++ exprListIds args
  | .exprParen a => a.ids
  | .exprVstore a _ => a.ids
  | .exprVec es _ => exprListIds es
  | .exprAddrOf _ a => a.ids
  | .exprField a => a.ids
  | .exprIndex a b => a.ids ++ b.ids
  | .exprTup es => exprListIds es
  | .exprRepeat a b _ => a.ids ++ b.ids
  | .exprStruct fs => exprListIds fs
  | .exprOther es => exprListIds es

/-- Node ids of a list of expressions, concatenated in order. -/
def exprListIds : List Expr → List NodeId
  | [] => []
  | e :: rest => e.ids ++ exprListIds rest

end

mutual

/-- Whether an expression subtree contains no parenthesized expression. -/
def Expr.parenFree : Expr → Bool
  | .mk _ _ n => ExprNode.parenFree n

/-- Paren-freedom of an expression shape and its children. -/
def ExprNode.parenFree : ExprNode → Bool
  | .exprParen _ => false
  | .exprUnary _ a => a.parenFree
  | .exprLit _ => true
  | .exprBinary a b => a.parenFree && b.parenFree
  | .exprCast a => a.parenFree
  | .exprPath _ => true
  | .exprCall callee args _ => callee.parenFree && exprListParenFree args
  | .exprVstore a _ => a.parenFree
  | .exprVec es _ => exprListParenFree es
  | .exprAddrOf _ a => a.parenFree
  | .exprField a => a.parenFree
  | .exprIndex a b => a.parenFree && b.parenFree
  | .exprTup es => exprListParenFree es
  | .exprRepeat a b _ => a.parenFree && b.parenFree
  | .exprStruct fs => exprListParenFree fs
  | .exprOther es => exprListParenFree es

/-- Paren-freedom of every expression in a list. -/
def exprListParenFree : List Expr → Bool
  | [] => true
  | e :: rest => e.parenFree && exprListParenFree rest

end

/-- The expression shapes on which `check_expr`'s match `return`s early
in constant context, skipping the generic child walk: the allocation arm
(`box`/`~`) and the default "unimplemented expression type" arm (every
shape not named by the match: sugared calls, mutable vector literals,
mutable-slice stores, and all `exprOther` forms). -/
def visit_stops : Expr → Bool
  | .mk _ _ (.exprUnary .unBox _) | .mk _ _ (.exprUnary .unUniq _) => true
  | .mk _ _ (.exprOther _) => true
  | .mk _ _ (.exprVec _ .mutMutable) => true
  | .mk _ _ (.exprVstore _ .vstoreMutSlice) => true
  | .mk _ _ (.exprCall _ _ .doSugar) => true
  | _ => false

mutual

/-- Instrumentation of the validator: the node ids processed by
`check_expr`, one occurrence per processing, in order.  It mirrors
`check_expr`'s control flow — the node itself is always recorded; in
constant context the early-`return` arms (`visit_stops`) skip the child
walk, the parenthesis arm additionally processes the inner expression
directly before falling through to the generic walk, and every other arm
falls through to the walk; with the flag cleared only the walk runs.
Aborting failures (which only cut the traversal short) are ignored, so on
abort-free runs this is exactly the multiset of processed nodes and
otherwise an upper bound. -/
def visits_expr (e : Expr) (is_const : Bool) : List NodeId :=
  e.id ::
    (if is_const then
      (match e with
       | .mk _ _ (.exprParen a) => visits_expr a is_const
       | _ => []) ++
      (if visit_stops e then [] else visits_walk e is_const)
    else visits_walk e is_const)
termination_by (sizeOf e, 1)

/-- Instrumentation of the generic child walk: the nodes processed while
visiting the children of `e`, in walk order. -/
def visits_walk (e : Expr) (is_const : Bool) : List NodeId :=
  match e with
  | .mk _ _ n =>
    match n with
    | .exprUnary _ a => visits_expr a is_const
    | .exprLit _ => []
    | .exprBinary a b => visits_expr a is_const ++ visits_expr b is_const
    | .exprCast a => visits_expr a is_const
    | .exprPath _ => []
    | .exprCall callee args _ =>
        visits_expr callee is_const ++ visits_list args is_const
    | .exprParen a => visits_expr a is_const
    | .exprVstore a _ => visits_expr a is_const
    | .exprVec es _ => visits_list es is_const
    | .exprAddrOf _ a => visits_expr a is_const
    | .exprField a => visits_expr a is_const
    | .exprIndex a b => visits_expr a is_const ++ visits_expr b is_const
    | .exprTup es => visits_list es is_const
    | .exprRepeat a b _ => visits_expr a is_const ++ visits_expr b is_const
    | .exprStruct fs => visits_list fs is_const
    | .exprOther es => visits_list es is_const
termination_by (sizeOf e, 0)

/-- Instrumented walk over a list of child expressions. -/
def visits_list (es : List Expr) (is_const : Bool) : List NodeId :=
  match es with
  | [] => []
  | e :: rest => visits_expr e is_const ++ visits_list rest is_const
termination_by (sizeOf es, 0)

end

/-! ## Claim theorems -/

/-- Helper: sequencing two stack-threading detector runs (the second
started from the first's final stack, traces appended) preserves the
invariant "the stack is restored on success, and from a duplicate-free
stack every recorded stack state is duplicate-free". -/
theorem cd_seq2 {P : Except Fatal (List NodeId × List (List NodeId))}
    {Q : List NodeId → Except Fatal (List NodeId × List (List NodeId))}
    {stack s : List NodeId} {tr : List (List NodeId)}
    (hP : ∀ s1 t1, P = .ok (s1, t1) →
      s1 = stack ∧ (stack.Nodup → ∀ st ∈ t1, st.Nodup))
    (hQ : ∀ s2 t2, Q stack = .ok (s2, t2) →
      s2 = stack ∧ (stack.Nodup → ∀ st ∈ t2, st.Nodup))
    (h : (do
      let (s1, t1) ← P
      let (s2, t2) ← Q s1
      pure (s2, t1 ++ t2)) = .ok (s, tr)) :
    s = stack ∧ (stack.Nodup → ∀ st ∈ tr, st.Nodup) := by
  cases hp : P with
  | error f => rw [hp] at h; simp [bind, Except.bind] at h
  | ok p =>
      obtain ⟨s1, t1⟩ := p
      obtain ⟨rfl, hnd1⟩ := hP s1 t1 hp
      rw [hp] at h
      simp only [bind, Except.bind] at h
      cases hq : Q s1 with
      | error f =>
          rw [hq] at h; simp at h
      | ok q =>
          obtain ⟨s2, t2⟩ := q
          obtain ⟨rfl, hnd2⟩ := hQ s2 t2 hq
          rw [hq] at h
          simp [pure, Except.pure] at h
          obtain ⟨rfl, rfl⟩ := h
          refine ⟨rfl, fun hnd st hst => ?_⟩
          rcases List.mem_append.mp hst with h1 | h2
          · exact hnd1 hnd st h1
          · exact hnd2 hnd st h2

/-- Helper: the three-run version of `cd_seq2`, used for the structural
walk of an `itemOther` declaration. -/
theorem cd_seq3 {P : Except Fatal (List NodeId × List (List NodeId))}
    {Q R : List NodeId → Except Fatal (List NodeId × List (List NodeId))}
    {stack s : List NodeId} {tr : List (List NodeId)}
    (hP : ∀ s1 t1, P = .ok (s1, t1) →
      s1 = stack ∧ (stack.Nodup → ∀ st ∈ t1, st.Nodup))
    (hQ : ∀ s2 t2, Q stack = .ok (s2, t2) →
      s2 = stack ∧ (stack.Nodup → ∀ st ∈ t2, st.Nodup))
    (hR : ∀ s3 t3, R stack = .ok (s3, t3) →
      s3 = stack ∧ (stack.Nodup → ∀ st ∈ t3, st.Nodup))
    (h : (do
      let (s1, t1) ← P
      let (s2, t2) ← Q s1
      let (s3, t3) ← R s2
      pure (s3, t1 ++ t2 ++ t3)) = .ok (s, tr)) :
    s = stack ∧ (stack.Nodup → ∀ st ∈ tr, st.Nodup) := by
  cases hp : P with
  | error f => rw [hp] at h; simp [bind, Except.bind] at h
  | ok p =>
      obtain ⟨s1, t1⟩ := p
      obtain ⟨rfl, hnd1⟩ := hP s1 t1 hp
      rw [hp] at h
      simp only [bind, Except.bind] at h
      cases hq : Q s1 with
      | error f =>
          rw [hq] at h; simp at h
      | ok q =>
          obtain ⟨s2, t2⟩ := q
          obtain ⟨rfl, hnd2⟩ := hQ s2 t2 hq
          rw [hq] at h
          simp only [bind, Except.bind] at h
          cases hr : R s2 with
          | error f =>
              rw [hr] at h; simp at h
          | ok r =>
              obtain ⟨s3, t3⟩ := r
              obtain ⟨rfl, hnd3⟩ := hR s3 t3 hr
              rw [hr] at h
              simp [pure, Except.pure] at h
              obtain ⟨rfl, rfl⟩ := h
              refine ⟨rfl, fun hnd st hst => ?_⟩
              rcases List.mem_append.mp hst with h1 | h23
              · exact hnd1 hnd st h1
              · rcases List.mem_append.mp h23 with h2' | h3
                · exact hnd2 hnd st h2'
                · exact hnd3 hnd st h3

/-- Helper: every successful detector run returns the stack it was given
(push on entry is matched by pop on exit on every normal path), and if
the incoming stack has no duplicate declaration id, neither does any
stack state recorded in the trace. -/
theorem cd_run_ok_inv (ctx : Ctx) (root : Item) :
    ∀ (fuel : Nat) (task : CdTask) (stack s : List NodeId)
      (tr : List (List NodeId)),
      cd_run ctx root fuel task stack = .ok (s, tr) →
      s = stack ∧ (stack.Nodup → ∀ st ∈ tr, st.Nodup) := by
  intro fuel
  induction fuel with
  | zero =>
      intro task stack s tr h
      simp [cd_run] at h
  | succ f ih =>
    intro task stack s tr h
    cases task with
    | tItem it =>
        simp only [cd_run] at h
        split at h
        · simp at h
        · rename_i hmem
          have hni : it.id ∉ stack := by
            intro hin
            exact hmem (List.any_eq_true.mpr ⟨it.id, hin, by simp⟩)
          cases h2 : cd_run ctx root f (.tWalkItem it) (stack ++ [it.id]) with
          | error f' => rw [h2] at h; simp [bind, Except.bind] at h
          | ok q =>
              obtain ⟨s2, tr2⟩ := q
              obtain ⟨rfl, hnd2⟩ := ih _ _ _ _ h2
              rw [h2] at h
              simp only [bind, Except.bind, pure, Except.pure,
                Except.ok.injEq, Prod.mk.injEq] at h
              obtain ⟨hs, htr⟩ := h
              have hdrop : (stack ++ [it.id]).dropLast = stack := by
                simp
              subst hs
              subst htr
              constructor
              · exact hdrop
              · intro hnd st hst
                have hnd1 : (stack ++ [it.id]).Nodup := by
                  simp [List.nodup_append, hnd, hni]
                rcases List.mem_cons.mp hst with rfl | h'
                · exact hnd1
                · rcases List.mem_append.mp h' with h2' | h3'
                  · exact hnd2 hnd1 st h2'
                  · rw [List.mem_singleton.mp h3', hdrop]
                    exact hnd
    | tWalkItem it =>
        obtain ⟨iid, isp, inode⟩ := it
        cases inode with
        | itemStatic ex =>
            simp only [cd_run] at h
            exact ih _ _ _ _ h
        | itemEnum vars =>
            simp only [cd_run] at h
            exact ih _ _ _ _ h
        | itemOther its es ps =>
            simp only [cd_run] at h
            exact cd_seq3 (fun s1 t1 h' => ih _ _ _ _ h')
              (fun s2 t2 h' => ih _ _ _ _ h')
              (fun s3 t3 h' => ih _ _ _ _ h') h
    | tExpr e =>
        obtain ⟨eid, esp, en⟩ := e
        cases en with
        | exprPath pth =>
            simp only [cd_run] at h
            refine cd_seq2 (fun s1 t1 h' => ?_)
              (fun s2 t2 h' => ih _ _ _ _ h') h
            cases hdm : ctx.def_map eid with
            | none =>
                simp only [hdm, pure, Except.pure, Except.ok.injEq,
                  Prod.mk.injEq] at h'
                obtain ⟨rfl, rfl⟩ := h'
                exact ⟨rfl, fun _ st hst => absurd hst (by simp)⟩
            | some d =>
                cases d with
                | defStatic did mutbl =>
                    by_cases hloc : (did.krate == 0) = true
                    · cases ham : ctx.ast_map did.node with
                      | none => simp [hdm, hloc, ham] at h'
                      | some an =>
                          cases an with
                          | nodeItem it' =>
                              simp only [hdm, hloc, if_true] at h'
                              rw [ham] at h'
                              exact ih _ _ _ _ h'
                          | nodeOther => simp [hdm, hloc, ham] at h'
                    · simp only [hdm, hloc, if_false, pure, Except.pure,
                        Except.ok.injEq, Prod.mk.injEq] at h'
                      obtain ⟨rfl, rfl⟩ := h'
                      exact ⟨rfl, fun _ st hst => absurd hst (by simp)⟩
                | defFn =>
                    simp only [hdm, pure, Except.pure, Except.ok.injEq,
                      Prod.mk.injEq] at h'
                    obtain ⟨rfl, rfl⟩ := h'
                    exact ⟨rfl, fun _ st hst => absurd hst (by simp)⟩
                | defVariant =>
                    simp only [hdm, pure, Except.pure, Except.ok.injEq,
                      Prod.mk.injEq] at h'
                    obtain ⟨rfl, rfl⟩ := h'
                    exact ⟨rfl, fun _ st hst => absurd hst (by simp)⟩
                | defStruct =>
                    simp only [hdm, pure, Except.pure, Except.ok.injEq,
                      Prod.mk.injEq] at h'
                    obtain ⟨rfl, rfl⟩ := h'
                    exact ⟨rfl, fun _ st hst => absurd hst (by simp)⟩
                | defOther =>
                    simp only [hdm, pure, Except.pure, Except.ok.injEq,
                      Prod.mk.injEq] at h'
                    obtain ⟨rfl, rfl⟩ := h'
                    exact ⟨rfl, fun _ st hst => absurd hst (by simp)⟩
        | exprUnary op a =>
            simp only [cd_run] at h; exact ih _ _ _ _ h
        | exprLit l =>
            simp only [cd_run] at h; exact ih _ _ _ _ h
        | exprBinary a b =>
            simp only [cd_run] at h; exact ih _ _ _ _ h
        | exprCast a =>
            simp only [cd_run] at h; exact ih _ _ _ _ h
        | exprCall callee args sugar =>
            simp only [cd_run] at h; exact ih _ _ _ _ h
        | exprParen a =>
            simp only [cd_run] at h; exact ih _ _ _ _ h
        | exprVstore a v =>
            simp only [cd_run] at h; exact ih _ _ _ _ h
        | exprVec es m =>
            simp only [cd_run] at h; exact ih _ _ _ _ h
        | exprAddrOf m a =>
            simp only [cd_run] at h; exact ih _ _ _ _ h
        | exprField a =>
            simp only [cd_run] at h; exact ih _ _ _ _ h
        | exprIndex a b =>
            simp only [cd_run] at h; exact ih _ _ _ _ h
        | exprTup es =>
            simp only [cd_run] at h; exact ih _ _ _ _ h
        | exprRepeat a b m =>
            simp only [cd_run] at h; exact ih _ _ _ _ h
        | exprStruct fs =>
            simp only [cd_run] at h; exact ih _ _ _ _ h
        | exprOther es =>
            simp only [cd_run] at h; exact ih _ _ _ _ h
    | tWalkExpr e =>
        simp only [cd_run] at h
        exact ih _ _ _ _ h
    | tPat p =>
        obtain ⟨pid, psp, pn⟩ := p
        cases pn with
        | patLit a =>
            simp only [cd_run] at h; exact ih _ _ _ _ h
        | patRange a b =>
            simp only [cd_run] at h
            exact cd_seq2 (fun s1 t1 h' => ih _ _ _ _ h')
              (fun s2 t2 h' => ih _ _ _ _ h') h
        | patOther ps =>
            simp only [cd_run] at h; exact ih _ _ _ _ h
    | tItems its =>
        cases its with
        | nil =>
            simp only [cd_run, pure, Except.pure] at h
            obtain ⟨rfl, rfl⟩ := h
            exact ⟨rfl, fun _ st hst => absurd hst (by simp)⟩
        | cons it rest =>
            simp only [cd_run] at h
            exact cd_seq2 (fun s1 t1 h' => ih _ _ _ _ h')
              (fun s2 t2 h' => ih _ _ _ _ h') h
    | tExprs es =>
        cases es with
        | nil =>
            simp only [cd_run, pure, Except.pure] at h
            obtain ⟨rfl, rfl⟩ := h
            exact ⟨rfl, fun _ st hst => absurd hst (by simp)⟩
        | cons e rest =>
            simp only [cd_run] at h
            exact cd_seq2 (fun s1 t1 h' => ih _ _ _ _ h')
              (fun s2 t2 h' => ih _ _ _ _ h') h
    | tPats ps =>
        cases ps with
        | nil =>
            simp only [cd_run, pure, Except.pure] at h
            obtain ⟨rfl, rfl⟩ := h
            exact ⟨rfl, fun _ st hst => absurd hst (by simp)⟩
        | cons p rest =>
            simp only [cd_run] at h
            exact cd_seq2 (fun s1 t1 h' => ih _ _ _ _ h')
              (fun s2 t2 h' => ih _ _ _ _ h') h

/-- Helper: in a parenthesis-free expression tree, the nodes processed by
the validator form a sublist of the tree's nodes — every node is
processed at most once (and the paren arm is the only source of
reprocessing).  By functional induction over the instrumented
traversal. -/
theorem visits_sublist_ids :
    ∀ (e : Expr) (b : Bool), e.parenFree = true →
      (visits_expr e b).Sublist e.ids := by
  intro e b
  refine visits_expr.induct
    (fun e b => e.parenFree = true → (visits_expr e b).Sublist e.ids)
    (fun e b => e.parenFree = true →
      (visits_walk e b).Sublist (ExprNode.ids e.node))
    (fun es b => exprListParenFree es = true →
      (visits_list es b).Sublist (exprListIds es))
    ?_ ?_ ?_ ?_ ?_ ?_ ?_ ?_ ?_ ?_ ?_ ?_ ?_ ?_ ?_ ?_ ?_ ?_ ?_ e b
  · intro e b hparen hwalk hpf
    obtain ⟨i, s, n⟩ := e
    cases n
    case exprParen a => simp [Expr.parenFree, ExprNode.parenFree] at hpf
    all_goals
      simp only [visits_expr, Expr.ids, Expr.id]
      refine List.Sublist.cons₂ _ ?_
      cases b
      · simpa [Expr.node] using hwalk hpf
      · simp only [if_true, List.nil_append]
        split
        · exact List.nil_sublist _
        · simpa [Expr.node] using hwalk hpf
  · intro b i s op a iha hpf
    simp only [Expr.parenFree, ExprNode.parenFree] at hpf
    simpa [visits_walk, Expr.node, ExprNode.ids] using iha hpf
  · intro b i s l _
    simp [visits_walk, Expr.node, ExprNode.ids]
  · intro b i s a c iha ihc hpf
    simp only [Expr.parenFree, ExprNode.parenFree, Bool.and_eq_true] at hpf
    simpa [visits_walk, Expr.node, ExprNode.ids] using
      List.Sublist.append (iha hpf.1) (ihc hpf.2)
  · intro b i s a iha hpf
    simp only [Expr.parenFree, ExprNode.parenFree] at hpf
    simpa [visits_walk, Expr.node, ExprNode.ids] using iha hpf
  · intro b i s pth _
    simp [visits_walk, Expr.node, ExprNode.ids]
  · intro b i s callee args sugar ihc iha hpf
    simp only [Expr.parenFree, ExprNode.parenFree, Bool.and_eq_true] at hpf
    simpa [visits_walk, Expr.node, ExprNode.ids] using
      List.Sublist.append (ihc hpf.1) (iha hpf.2)
  · intro b i s a iha hpf
    simp [Expr.parenFree, ExprNode.parenFree] at hpf
  · intro b i s a v iha hpf
    simp only [Expr.parenFree, ExprNode.parenFree] at hpf
    simpa [visits_walk, Expr.node, ExprNode.ids] using iha hpf
  · intro b i s es m ihes hpf
    simp only [Expr.parenFree, ExprNode.parenFree] at hpf
    simpa [visits_walk, Expr.node, ExprNode.ids] using ihes hpf
  · intro b i s m a iha hpf
    simp only [Expr.parenFree, ExprNode.parenFree] at hpf
    simpa [visits_walk, Expr.node, ExprNode.ids] using iha hpf
  · intro b i s a iha hpf
    simp only [Expr.parenFree, ExprNode.parenFree] at hpf
    simpa [visits_walk, Expr.node, ExprNode.ids] using iha hpf
  · intro b i s a c iha ihc hpf
    simp only [Expr.parenFree, ExprNode.parenFree, Bool.and_eq_true] at hpf
    simpa [visits_walk, Expr.node, ExprNode.ids] using
      List.Sublist.append (iha hpf.1) (ihc hpf.2)
  · intro b i s es ihes hpf
    simp only [Expr.parenFree, ExprNode.parenFree] at hpf
    simpa [visits_walk, Expr.node, ExprNode.ids] using ihes hpf
  · intro b i s a c m iha ihc hpf
    simp only [Expr.parenFree, ExprNode.parenFree, Bool.and_eq_true] at hpf
    simpa [visits_walk, Expr.node, ExprNode.ids] using
      List.Sublist.append (iha hpf.1) (ihc hpf.2)
  · intro b i s fs ihfs hpf
    simp only [Expr.parenFree, ExprNode.parenFree] at hpf
    simpa [visits_walk, Expr.node, ExprNode.ids] using ihfs hpf
  · intro b i s es ihes hpf
    simp only [Expr.parenFree, ExprNode.parenFree] at hpf
    simpa [visits_walk, Expr.node, ExprNode.ids] using ihes hpf
  · intro b _
    simp [visits_list, exprListIds]
  · intro b a rest iha ihrest hpf
    simp only [exprListParenFree, Bool.and_eq_true] at hpf
    simpa [visits_list, exprListIds] using
      List.Sublist.append (iha hpf.1) (ihrest hpf.2)

/-- C1 (counterexample): with the inner expression `~lit` (node id `1`,
span `7`) wrapped in a parenthesized expression in constant context, the
validator emits the allocation diagnostic at span `7` twice — each
emission comes from one processing of node `1` by `check_expr` (the
allocation arm emits exactly one diagnostic per visit), so the inner
expression of the parenthesized expression is validated twice, not
exactly once as the claim states. -/
theorem c1_counterexample :
    check_expr trivVCtx
        (.mk 0 5 (.exprParen (.mk 1 7 (.exprUnary .unUniq
          (.mk 2 9 (.exprLit .litOther)))))) true =
      .ok [Diag.mk 7 allocMsg, Diag.mk 7 allocMsg] ∧
    [Diag.mk 7 allocMsg, Diag.mk 7 allocMsg].length ≠ 1 ∧
    visits_expr
        (.mk 0 5 (.exprParen (.mk 1 7 (.exprUnary .unUniq
          (.mk 2 9 (.exprLit .litOther)))))) true = [0, 1, 1] ∧
    List.count 1 [0, 1, 1] = 2 := by
  refine ⟨?_, by simp, ?_, by simp⟩
  · simp [check_expr, walk_expr, check_expr_list, trivVCtx, pure, Except.pure,
      bind, Except.bind]
  · simp [visits_expr, visits_walk, visit_stops, Expr.id]

/-- C1 (amended): in constant context the inner expression of a
parenthesized expression is processed by `check_expr` twice per
processing of the parenthesized node — once via the `ExprParen` arm's
direct recursive call and once more via the generic child walk — so its
diagnostics are emitted twice and the instrumented traversal records it
twice; in a parenthesis-free expression tree with distinct node ids,
every node is processed at most once (the processed ids are
duplicate-free). -/
theorem c1_paren_double (ctx : VCtx) (eid sp : Nat) (a : Expr) (e : Expr)
    (b : Bool) :
    check_expr ctx (.mk eid sp (.exprParen a)) true =
      (do
        let d ← check_expr ctx a true
        let d' ← check_expr ctx a true
        pure (d ++ d')) ∧
    visits_expr (.mk eid sp (.exprParen a)) true =
      eid :: (visits_expr a true ++ visits_expr a true) ∧
    (e.parenFree = true → e.ids.Nodup → (visits_expr e b).Nodup) := by
  refine ⟨?_, ?_, ?_⟩
  · cases h : check_expr ctx a true with
    | error f =>
        simp [check_expr, walk_expr, h, bind, Except.bind]
    | ok d =>
        simp [check_expr, walk_expr, h, bind, Except.bind, pure, Except.pure]
  · simp [visits_expr, visits_walk, visit_stops, Expr.id]
  · intro h1 h2
    exact List.Nodup.sublist (visits_sublist_ids e b h1) h2

/-- C1 witness for the amended claim's conditional part: the
parenthesis-free expression `!lit` with distinct node ids is processed
with no node repeated. -/
theorem c1_witness :
    (visits_expr (.mk 0 1 (.exprUnary .unNot (.mk 2 3 (.exprLit .litOther))))
      true).Nodup :=
  (c1_paren_double trivVCtx 4 5 (.mk 6 7 (.exprLit .litOther))
      (.mk 0 1 (.exprUnary .unNot (.mk 2 3 (.exprLit .litOther)))) true).2.2
    (by simp [Expr.parenFree, ExprNode.parenFree])
    (by simp [Expr.ids, ExprNode.ids])

/-- C5 (counterexample): the expression `(box lit)` — an owning/boxed
allocation under a parenthesized expression — contains an allocation
operator inside constant context, yet the validator emits the allocation
diagnostic twice (the parenthesized wrapper makes the allocation node be
visited twice), not exactly once as the claim states. -/
theorem c5_counterexample :
    check_expr trivVCtx
        (.mk 3 2 (.exprParen (.mk 4 6 (.exprUnary .unBox
          (.mk 5 8 (.exprLit .litOther)))))) true =
      .ok [Diag.mk 6 allocMsg, Diag.mk 6 allocMsg] ∧
    ([Diag.mk 6 allocMsg, Diag.mk 6 allocMsg].filter
        fun dg => dg.msg == allocMsg).length ≠ 1 := by
  constructor
  · simp [check_expr, walk_expr, check_expr_list, trivVCtx, pure, Except.pure,
      bind, Except.bind]
  · simp

/-- C5 (amended): each visit of an owning/boxed allocation node (`box` or
`~` unary operator) in constant context emits exactly one allocation
diagnostic, at the allocation node's span, and does not recurse into the
node's children — the result is independent of the operand subtree; an
allocation node reached more than once (inner expression of a
parenthesized expression) therefore yields one diagnostic per visit. -/
theorem c5_alloc_once_per_visit (ctx : VCtx) (eid sp : Nat) (a : Expr) :
    check_expr ctx (.mk eid sp (.exprUnary .unBox a)) true =
      .ok [Diag.mk sp allocMsg] ∧
    check_expr ctx (.mk eid sp (.exprUnary .unUniq a)) true =
      .ok [Diag.mk sp allocMsg] := by
  constructor <;>
    simp [check_expr, pure, Except.pure, bind, Except.bind]

/-- C8: a range pattern whose bounds are the owned string literals
`"a"` and `"z"` produces zero diagnostics, for every collaborator context
and every incoming flag: both bounds satisfy the `is_str` exemption, so
neither is routed through constant-context validation. -/
theorem c8_string_range_pattern (ctx : VCtx) (b : Bool)
    (pid psp i1 s1 i2 s2 j1 t1 j2 t2 : Nat) :
    check_pat ctx
      (.mk pid psp (.patRange
        (.mk i1 s1 (.exprVstore (.mk j1 t1 (.exprLit (.litStr "a")))
          .vstoreUniq))
        (.mk i2 s2 (.exprVstore (.mk j2 t2 (.exprLit (.litStr "z")))
          .vstoreUniq)))) b = .ok [] := by
  simp [check_pat, is_str, pure, Except.pure, bind, Except.bind]

/-- C10: the pattern checker ignores the constant-context flag it is
invoked with: for any flag `b`, a literal pattern's bound and a range
pattern's bounds that are not owned string literals are validated with
constant context `true`, exempted bounds are skipped, and every other
pattern form recurses over its sub-patterns with the flag `false`. -/
theorem c10_pat_flag_ignored (ctx : VCtx) (b : Bool) (pid psp : Nat)
    (a lo hi : Expr) (ps : List Pat) (p : Pat) :
    check_pat ctx p b = check_pat ctx p false ∧
    check_pat ctx (.mk pid psp (.patLit a)) b =
      (if is_str a then .ok [] else check_expr ctx a true) ∧
    check_pat ctx (.mk pid psp (.patRange lo hi)) b = (do
      let d1 ← (if is_str lo then pure [] else check_expr ctx lo true)
      let d2 ← (if is_str hi then pure [] else check_expr ctx hi true)
      pure (d1 ++ d2)) ∧
    check_pat ctx (.mk pid psp (.patOther ps)) b =
      check_pat_list ctx ps false := by
  refine ⟨?_, ?_, ?_, ?_⟩
  · cases p with
    | mk pid' psp' pn => cases pn <;> simp [check_pat]
  · simp [check_pat, pure, Except.pure]
  · simp [check_pat]
  · simp [check_pat]

/-- C6: for a path expression in constant context one of whose segments
carries explicit type arguments, and which the resolution map resolves to
some definition `d`, the validator's output contains exactly one
diagnostic with the "paths in constants may only refer to items without
type parameters" message, at the path node's span — whatever `d` is. -/
theorem c6_path_type_params (ctx : VCtx) (eid sp : Nat) (pth : Path)
    (d : Def) (hres : ctx.def_map eid = some d)
    (hty : pth.segments.all (fun seg => seg.types.isEmpty) = false) :
    ∃ ds, check_expr ctx (.mk eid sp (.exprPath pth)) true = .ok ds ∧
      (ds.filter fun dg => dg.msg == typeParamMsg).length = 1 ∧
      (∀ dg ∈ ds, dg.span = sp) := by
  cases d <;>
    simp [check_expr, walk_expr, hres, hty, pure, Except.pure, bind,
      Except.bind, typeParamMsg, pathDefMsg, List.filter]

/-- C6 witness: the concrete path expression with node id `0`, span `3`
and one type-argument-carrying segment, resolved by `pathCtx` to a
rejected definition kind, yields exactly one type-parameter diagnostic. -/
theorem c6_witness :
    ∃ ds, check_expr pathVCtx (.mk 0 3 (.exprPath tyArgPath)) true = .ok ds ∧
      (ds.filter fun dg => dg.msg == typeParamMsg).length = 1 ∧
      (∀ dg ∈ ds, dg.span = 3) :=
  c6_path_type_params pathVCtx 0 3 tyArgPath .defOther rfl rfl

/-- C7: for a type-cast expression in constant context whose operand
checks without an aborting failure, no diagnostic is added at the cast
node when the type oracle reports a numeric or raw-pointer result type,
and otherwise exactly one diagnostic is added, whose message names the
offending target type. -/
theorem c7_cast_target (ctx : VCtx) (eid sp : Nat) (a : Expr)
    (rest : List Diag) (h : check_expr ctx a true = .ok rest) :
    (((ctx.expr_ty eid).is_numeric || (ctx.expr_ty eid).is_unsafe_ptr)
        = true →
      check_expr ctx (.mk eid sp (.exprCast a)) true = .ok rest) ∧
    (((ctx.expr_ty eid).is_numeric || (ctx.expr_ty eid).is_unsafe_ptr)
        = false →
      check_expr ctx (.mk eid sp (.exprCast a)) true =
        .ok (Diag.mk sp ("can not cast to `" ++ (ctx.expr_ty eid).name ++
          "` in a constant expression") :: rest)) := by
  constructor
  · intro hty
    simp [check_expr, walk_expr, h, pure, Except.pure, bind, Except.bind]
    rcases (Bool.or_eq_true _ _).mp hty with h2 | h2
    · exact fun h1 => absurd h2 (by simp [h1])
    · exact fun _ => h2
  · intro hty
    have h1 : (ctx.expr_ty eid).is_numeric = false := by
      revert hty; cases (ctx.expr_ty eid).is_numeric <;> simp
    have h2 : (ctx.expr_ty eid).is_unsafe_ptr = false := by
      revert hty; cases (ctx.expr_ty eid).is_unsafe_ptr <;> simp
    simp [check_expr, walk_expr, h, h1, h2, pure, Except.pure, bind,
      Except.bind, castMsg]

/-- C7 witness: casting a literal to the non-numeric, non-pointer type
`T` (as reported by `trivCtx`'s type oracle) yields exactly the one
diagnostic naming `T`. -/
theorem c7_witness :
    ((((trivVCtx.expr_ty 0).is_numeric || (trivVCtx.expr_ty 0).is_unsafe_ptr)
        = true →
      check_expr trivVCtx (.mk 0 1 (.exprCast (.mk 2 3 (.exprLit .litOther))))
        true = .ok []) ∧
    (((trivVCtx.expr_ty 0).is_numeric || (trivVCtx.expr_ty 0).is_unsafe_ptr)
        = false →
      check_expr trivVCtx (.mk 0 1 (.exprCast (.mk 2 3 (.exprLit .litOther))))
        true =
        .ok (Diag.mk 1 ("can not cast to `" ++ (trivVCtx.expr_ty 0).name ++
          "` in a constant expression") :: []))) :=
  c7_cast_target trivVCtx 0 1 (.mk 2 3 (.exprLit .litOther)) []
    (by simp [check_expr, walk_expr, trivCtx, pure, Except.pure, bind,
      Except.bind])

/-- C3: dispatch of the crate walker over a top-level declaration, for
any incoming flag `b`: a constant binding has its initializer validated
with the constant flag `true` and is then handed to the cycle detector
(whose fatal error, if any, becomes the result); an enum declaration has
exactly its variants' discriminant expressions validated with the flag
`true` (`check_variants`, which receives only the validator's
collaborators) and its result is independent of the cycle detector's
collaborators (item map and fuel), so it is never handed to the detector;
any other declaration is walked structurally with the flag `false`. -/
theorem c3_walker_dispatch (ctx : Ctx) (b : Bool) (iid isp : Nat)
    (ex : Expr) (vars : List Variant) (its : List Item) (es : List Expr)
    (ps : List Pat) :
    (∀ ds u, check_expr ctx.validator ex true = .ok ds →
      check_item_recursion ctx (.mk iid isp (.itemStatic ex)) = .ok u →
      check_item ctx (.mk iid isp (.itemStatic ex)) b = .ok ds) ∧
    (∀ ds f, check_expr ctx.validator ex true = .ok ds →
      check_item_recursion ctx (.mk iid isp (.itemStatic ex)) = .error f →
      check_item ctx (.mk iid isp (.itemStatic ex)) b = .error f) ∧
    check_item ctx (.mk iid isp (.itemEnum vars)) b =
      check_variants ctx.validator vars ∧
    (∀ ctx' : Ctx, ctx'.validator = ctx.validator →
      check_item ctx' (.mk iid isp (.itemEnum vars)) b =
        check_item ctx (.mk iid isp (.itemEnum vars)) b) ∧
    check_item ctx (.mk iid isp (.itemOther its es ps)) b =
      walk_item ctx (.mk iid isp (.itemOther its es ps)) false := by
  refine ⟨?_, ?_, ?_, ?_, ?_⟩
  · intro ds u h1 h2
    simp [check_item, h1, h2, pure, Except.pure, bind, Except.bind]
  · intro ds f h1 h2
    simp [check_item, h1, h2, pure, Except.pure, bind, Except.bind]
  · simp [check_item]
  · intro ctx' hv
    simp [check_item, hv]
  · simp [check_item]

/-- C3 witness: the singleton constant `static K = 1;` under `detOkCtx`
(validator returns no diagnostics, detector succeeds), together with the
enum and other-item dispatch equations at empty children. -/
theorem c3_witness :
    check_item detOkCtx detOkItem false = .ok [] :=
  (c3_walker_dispatch detOkCtx false 1 2 (.mk 3 4 (.exprLit .litOther))
      [] [] [] []).1 [] ([], [[1], []])
    (by simp [check_expr, walk_expr, pure, Except.pure, bind, Except.bind])
    rfl

/-- C4: recoverable diagnostics never stop the whole-crate walk — the
walk over a concatenation of declarations is the concatenation of the two
walks' diagnostics (later declarations are processed whatever diagnostics
earlier ones produced) — and when the walk completes without a fatal
error, the abort decision, made once from the final diagnostic list,
aborts exactly when at least one recoverable diagnostic was recorded. -/
theorem c4_abort_after_full_walk (ctx : Ctx) :
    (∀ is1 is2 : List Item,
      check_item_list ctx (is1 ++ is2) false =
        (do
          let d1 ← check_item_list ctx is1 false
          let d2 ← check_item_list ctx is2 false
          pure (d1 ++ d2))) ∧
    (∀ (c : Crate) (ds : List Diag) (ab : Bool),
      check_crate ctx c = .ok (ds, ab) → (ab = true ↔ ds ≠ [])) := by
  constructor
  · intro is1 is2
    induction is1 with
    | nil =>
        cases h : check_item_list ctx is2 false <;>
          simp [check_item_list, h, pure, Except.pure, bind, Except.bind]
    | cons it rest ih =>
        cases h1 : check_item ctx it false with
        | error f =>
            simp [check_item_list, h1, bind, Except.bind]
        | ok d =>
            cases h2 : check_item_list ctx rest false with
            | error f =>
                simp [check_item_list, h1, h2, ih, bind, Except.bind]
            | ok ds =>
                cases h3 : check_item_list ctx is2 false <;>
                  simp [check_item_list, h1, h2, h3, ih, pure, Except.pure,
                    bind, Except.bind]
  · intro c ds ab h
    cases h1 : check_item_list ctx c.items false with
    | error f => simp [check_crate, h1, bind, Except.bind] at h
    | ok ds1 =>
        simp [check_crate, h1, bind, Except.bind, pure, Except.pure] at h
        obtain ⟨rfl, rfl⟩ := h
        simp only [abort_if_errors, bne_iff_ne, ne_eq]
        exact not_congr List.length_eq_zero

/-- C4 witness: at the empty crate (no declarations, no diagnostics) the
abort decision is negative, and the concatenation law holds at two empty
lists. -/
theorem c4_witness :
    check_item_list trivCtx ([] ++ []) false =
      (do
        let d1 ← check_item_list trivCtx [] false
        let d2 ← check_item_list trivCtx [] false
        pure (d1 ++ d2)) ∧
    (false = true ↔ ([] : List Diag) ≠ []) :=
  ⟨(c4_abort_after_full_walk trivCtx).1 [] [],
   (c4_abort_after_full_walk trivCtx).2 ⟨[]⟩ [] false
     (by simp [check_crate, check_item_list, abort_if_errors, pure,
       Except.pure, bind, Except.bind])⟩

/-- C2: for the reference chain `A → B → C → A` of local constant
bindings (each initializer a path expression resolving to the next
constant), the cycle detector rooted at `A` stops with exactly one fatal
"recursive constant" error whose span is `A`'s declaration span `spA`
(not the span of the recursive reference), and the whole-crate walk over
`[A, D]` yields that same fatal error whatever the later declaration `D`
is — `D` is never checked. -/
theorem c2_cycle_fatal (spA sA spB sB spC sC : Span) (D : Item) :
    check_item_recursion (cycleCtx spA sA spB sB spC sC)
        (cycleItemA spA sA) =
      .error (.spanFatal spA "recursive constant") ∧
    check_crate (cycleCtx spA sA spB sB spC sC)
        { items := [cycleItemA spA sA, D] } =
      .error (.spanFatal spA "recursive constant") := by
  have hstep : check_item (cycleCtx spA sA spB sB spC sC)
      (cycleItemA spA sA) false =
      .error (.spanFatal spA "recursive constant") := by
    simp only [cycleItemA, check_item]
    simp [check_expr, walk_expr, cycleCtx, cyclePath, bind, Except.bind,
      pure, Except.pure]
    rfl
  refine ⟨rfl, ?_⟩
  simp [check_crate, check_item_list, hstep, bind, Except.bind]

/-- C9: a cycle-detector run over a root declaration that completes
without the fatal error returns the empty stack it started from (the
fresh stack per root): the first recorded stack state is exactly the
root's pushed id, the last is the empty stack left after the matching
pop, and no recorded stack state contains a duplicate declaration id. -/
theorem c9_stack_invariant (ctx : Ctx) (it : Item) (s : List NodeId)
    (tr : List (List NodeId))
    (h : check_item_recursion ctx it = .ok (s, tr)) :
    s = [] ∧ tr.head? = some [it.id] ∧ tr.getLast? = some [] ∧
      ∀ st ∈ tr, st.Nodup := by
  unfold check_item_recursion at h
  cases hf : ctx.fuel with
  | zero => rw [hf] at h; simp [cd_run] at h
  | succ f =>
      rw [hf] at h
      simp only [cd_run, List.any_nil, List.nil_append, Bool.false_eq_true,
        if_false] at h
      cases h2 : cd_run ctx it f (.tWalkItem it) [it.id] with
      | error f' => rw [h2] at h; simp [bind, Except.bind] at h
      | ok q =>
          obtain ⟨s2, tr2⟩ := q
          obtain ⟨rfl, hnd2⟩ := cd_run_ok_inv ctx it f _ _ _ _ h2
          rw [h2] at h
          simp only [bind, Except.bind, pure, Except.pure, Except.ok.injEq,
            Prod.mk.injEq] at h
          obtain ⟨hs, htr⟩ := h
          have hdrop : ([it.id] : List NodeId).dropLast = [] := rfl
          rw [hdrop] at hs htr
          subst hs
          subst htr
          refine ⟨rfl, rfl, ?_, ?_⟩
          · rw [show ([it.id] : List NodeId) :: (tr2 ++ [[]]) =
                (([it.id] : List NodeId) :: tr2) ++ [[]] from rfl]
            exact List.getLast?_concat _
          · intro st hst
            rcases List.mem_cons.mp hst with rfl | h'
            · simp
            · rcases List.mem_append.mp h' with h2' | h3'
              · exact hnd2 (by simp) st h2'
              · rw [List.mem_singleton.mp h3']
                exact List.nodup_nil

/-- C9 witness: the non-recursive constant `static K = 1;` under
`detOkCtx` completes with the restored empty stack and the trace
`[[1], []]` — push of the root id, then the matching pop. -/
theorem c9_witness :
    ([] : List NodeId) = [] ∧
      ([[1], []] : List (List NodeId)).head? = some [detOkItem.id] ∧
      ([[1], []] : List (List NodeId)).getLast? = some [] ∧
      ∀ st ∈ ([[1], []] : List (List NodeId)), st.Nodup :=
  c9_stack_invariant detOkCtx detOkItem [] [[1], []] rfl

end CheckConst
